import Mathlib

/-!
Verification of `scripts/github-issue-to-jira.mjs`.

The script is sequential glue: it reads environment configuration, parses a
GitHub issue-form payload, derives a Jira priority and label set, builds an
Atlassian Document Format description, creates a Jira ticket over HTTP and
posts a confirmation comment back on the GitHub issue.

The shallow embedding below mirrors the source definitions:
* `JSValue` models the JavaScript values that can appear as parsed form-field
  values (undefined, null, string, array of strings, number, checkbox group
  `selected/unselected`, other objects);
* `isMissing`, `normalizeValue`, `valueOrMissing` embed the helpers of the
  same names;
* `sanitizeLabel` embeds the five chained regex replacements;
* `jiraPriorityName`, `effectiveSdkVersion`, `jiraLabels` embed the priority
  and label derivation (JS `new Set` iteration order is insertion order, so
  `Array.from(new Set(l))` is dedup keeping first occurrences);
* `descriptionContent` embeds the ADF description builder;
* `startup` embeds the effectful startup prefix of the script (environment
  reads and file reads, in source order);
* `runCalls` embeds the two ordered outbound network calls.
-/

/-- JavaScript values relevant to the script: parsed form fields are strings,
arrays of strings or checkbox groups; `undefined`/`null`/`num`/`objOther` cover the
remaining shapes the helpers are defined on. -/
inductive JSValue where
  | undefined : JSValue
  | null : JSValue
  | str : String → JSValue
  | arr : List String → JSValue
  | num : Int → JSValue
  | checkbox : List String → List String → JSValue
  | objOther : JSValue
  deriving DecidableEq, Repr

/-- JS `s.toLowerCase()`, character by character (stated on `List Char` so
that it evaluates inside the kernel; on the characters this program feeds it,
ASCII lowercasing agrees with JS). -/
def jsToLower (s : String) : String :=
  String.mk (s.data.map Char.toLower)

/-- JS `s.trim()`: strip leading and trailing whitespace. -/
def jsTrim (s : String) : String :=
  String.mk (((s.data.dropWhile Char.isWhitespace).reverse.dropWhile
    Char.isWhitespace).reverse)

/-- JS `s.startsWith(p)`. -/
def strStartsWith (s p : String) : Bool :=
  s.data.take p.data.length == p.data

/-- JS `String(v)` on the values of `JSValue` (arrays join with a comma,
plain objects print as `[object Object]`). -/
def jsToString : JSValue → String
  | .undefined => "undefined"
  | .null => "null"
  | .str s => s
  | .arr xs => String.intercalate "," xs
  | .num n => toString n
  | .checkbox _ _ => "[object Object]"
  | .objOther => "[object Object]"

/-- Embeds `isMissing(v)` from the source: undefined/null are missing, an
array is missing when empty, a string when whitespace-only, a checkbox group
when both sub-arrays are empty; everything else is not missing. -/
def isMissing : JSValue → Bool
  | .undefined => true
  | .null => true
  | .arr xs => xs.isEmpty
  | .str s => (jsTrim s).length == 0
  | .checkbox sel unsel => sel.isEmpty && unsel.isEmpty
  | .num _ => false
  | .objOther => false

/-- Result type of `normalizeValue`: a display string or a passed-through
checkbox group. -/
inductive NormValue where
  | str : String → NormValue
  | checkbox : List String → List String → NormValue
  deriving DecidableEq, Repr

/-- Embeds `normalizeValue(v)`: arrays join with `", "`, checkbox groups pass
through, everything else goes through JS `String`. -/
def normalizeValue : JSValue → NormValue
  | .arr xs => .str (String.intercalate ", " xs)
  | .checkbox sel unsel => .checkbox sel unsel
  | v => .str (jsToString v)

/-- A parsed issue form: a total map from field id to `JSValue`, with absent
ids mapped to `JSValue.undefined` (JS property access on a missing key). -/
def Form : Type := String → JSValue

/-- The sentinel text substituted for an absent/empty field. -/
def missingText (id : String) : String :=
  "Field " ++ id ++ " wasn't entered."

/-- Embeds `valueOrMissing(id)`. -/
def valueOrMissing (form : Form) (id : String) : NormValue :=
  if isMissing (form id) then .str (missingText id) else normalizeValue (form id)

/-- The fixed field ids of the issue template, in source order. -/
def FIELD_IDS : List String :=
  ["severity", "sdk-version", "sdk-version-other", "android-version", "device",
   "gradle-version", "kotlin-version", "steps-to-reproduce", "expected-behavior",
   "actual-behavior", "logs", "additional-context", "confirmations"]

/-- Embeds the severity extraction: first element when the `severity` field is
an array, otherwise undefined. -/
def severityOf (form : Form) : Option String :=
  match form "severity" with
  | .arr xs => xs.head?
  | _ => none

/-- Embeds `isP1`: the severity is a string starting with the literal phrase. -/
def isP1 (form : Form) : Bool :=
  match severityOf form with
  | some s => strStartsWith s "Major functionality not working"
  | none => false

/-- Embeds `jiraPriorityName`. -/
def jiraPriorityName (form : Form) : String :=
  if isP1 form then "High" else "Medium"

/-- The character class `[a-z0-9-_]` of the third replacement in
`sanitizeLabel`. -/
def allowedChar (c : Char) : Bool :=
  ('a' ≤ c && c ≤ 'z') || ('0' ≤ c && c ≤ '9') || c == '-' || c == '_'

/-- JS `replace(/p+/g, out)` on a character list: each maximal run of
characters satisfying `p` becomes the single character `out`.  The flag
records whether the previous character belonged to a run. -/
def collapseRuns (p : Char → Bool) (out : Char) : Bool → List Char → List Char
  | _, [] => []
  | prev, c :: cs =>
      if p c then
        if prev then collapseRuns p out true cs
        else out :: collapseRuns p out true cs
      else c :: collapseRuns p out false cs

/-- JS `replace(/^-|-$/g, "")` on a character list: the alternation matches a
single leading hyphen and a single trailing hyphen. -/
def stripEdgeHyphens (l : List Char) : List Char :=
  let l1 := match l with
    | '-' :: r => r
    | _ => l
  if l1.getLast? = some '-' then l1.dropLast else l1

/-- Embeds `sanitizeLabel(s)`: `String(s).toLowerCase()` then the four chained
regex replacements (`\s+` to `-`, characters outside `[a-z0-9-_]` to `-`,
`-+` to `-`, strip one leading and one trailing `-`). -/
def sanitizeLabel (s : String) : String :=
  String.mk (stripEdgeHyphens (collapseRuns (fun c => c == '-') '-' false
    ((collapseRuns Char.isWhitespace '-' false (jsToLower s).data).map
      (fun c => if allowedChar c then c else '-'))))

/-- `sanitizeLabel` as applied to a raw JS value (the source function starts
with `String(s)`). -/
def sanitizeLabelJS (v : JSValue) : String :=
  sanitizeLabel (jsToString v)

/-- Spec-side run collapsing, written with lookahead instead of a carried
flag: a character of the run is dropped when the next character continues the
run, and becomes `out` when it does not. -/
def collapseRunsLA (p : Char → Bool) (out : Char) : List Char → List Char
  | [] => []
  | [c] => if p c then [out] else [c]
  | c :: d :: rest =>
      if p c then
        if p d then collapseRunsLA p out (d :: rest)
        else out :: collapseRunsLA p out (d :: rest)
      else c :: collapseRunsLA p out (d :: rest)

/-- Spec-side edge stripping: drop all leading and all trailing hyphens. -/
def trimHyphens (l : List Char) : List Char :=
  ((l.dropWhile (fun c => c == '-')).reverse.dropWhile (fun c => c == '-')).reverse

/-- The claim's description of `sanitizeLabel` as an independent pipeline:
lowercase; collapse each whitespace run into one hyphen; replace every
character outside `[a-z0-9-_]` with a hyphen; collapse repeated hyphens;
strip all leading and trailing hyphens. -/
def sanitizeLabelSpec (s : String) : String :=
  String.mk (trimHyphens (collapseRunsLA (fun c => c == '-') '-'
    ((collapseRunsLA Char.isWhitespace '-' (jsToLower s).data).map
      (fun c => if allowedChar c then c else '-'))))

/-- Embeds `effectiveSdkVersion`: when the first `sdk-version` element is
`Other (specify below)`, the raw `sdk-version-other` value (or `"Other"` when
that is null/undefined, per `??`); otherwise the first element, or `"unknown"`
when `sdk-version` is not a non-empty array. -/
def effectiveSdkVersion (form : Form) : JSValue :=
  match form "sdk-version" with
  | .arr (s :: _) =>
      if s = "Other (specify below)" then
        match form "sdk-version-other" with
        | .undefined => .str "Other"
        | .null => .str "Other"
        | v => v
      else .str s
  | _ => .str "unknown"

/-- Dedup keeping first occurrences: `Array.from(new Set(l))`, since a JS
`Set` iterates in insertion order. -/
def insertionDedup (l : List String) : List String :=
  l.foldl (fun acc x => if x ∈ acc then acc else acc ++ [x]) []

/-- The five fixed/derived labels the script always inserts first: the three
fixed tags, the issue-number label and the SDK-version label. -/
def fixedLabels (issueNumber : Nat) (effVer : JSValue) : List String :=
  ["cmp", "android", "source-github",
   "gh-issue-" ++ toString issueNumber,
   "sdk-" ++ sanitizeLabelJS effVer]

/-- The label list before dedup and truncation, in source order: the five
fixed/derived labels, then the sanitized GitHub labels. -/
def rawLabels (issueNumber : Nat) (effVer : JSValue) (ghLabels : List String) :
    List String :=
  fixedLabels issueNumber effVer ++ ghLabels.map sanitizeLabel

/-- Embeds `jiraLabels`: dedup in insertion order, then `.slice(0, 50)`. -/
def jiraLabels (issueNumber : Nat) (effVer : JSValue) (ghLabels : List String) :
    List String :=
  (insertionDedup (rawLabels issueNumber effVer ghLabels)).take 50

/-- Reference form of first-occurrence dedup: an element is dropped when it
occurred before (in `seen` or earlier in the list). -/
def firstOccs (seen : List String) : List String → List String
  | [] => []
  | x :: xs => if x ∈ seen then firstOccs seen xs else x :: firstOccs (x :: seen) xs

/-- Atlassian Document Format block nodes, abstracted to the three shapes the
script emits (`adfHeading`, `adfParagraph`, `adfCodeBlock`). -/
inductive ADF where
  | heading : Nat → String → ADF
  | paragraph : String → ADF
  | codeBlock : String → String → ADF
  deriving DecidableEq, Repr

/-- A JSON string literal (quote and backslash escaped). -/
def jsonStr (s : String) : String :=
  "\"" ++ s.data.foldr (fun c acc =>
    (if c = '"' then "\\\"" else if c = '\\' then "\\\\" else String.mk [c]) ++ acc)
    "" ++ "\""

/-- `JSON.stringify` of an array of strings, compact. -/
def jsonArr (xs : List String) : String :=
  "[" ++ String.intercalate "," (xs.map jsonStr) ++ "]"

/-- `JSON.stringify({selected, unselected})`, compact. -/
def jsonCheckbox (sel unsel : List String) : String :=
  "\x7b\"selected\":" ++ jsonArr sel ++ ",\"unselected\":" ++ jsonArr unsel ++ "\x7d"

/-- `JSON.stringify` of an array of strings with indent 2, as nested at depth
one (`indent` is the enclosing indentation). -/
def jsonArrPretty (indent : String) (xs : List String) : String :=
  match xs with
  | [] => "[]"
  | _ => "[\n" ++
      String.intercalate ",\n" (xs.map (fun x => indent ++ "  " ++ jsonStr x)) ++
      "\n" ++ indent ++ "]"

/-- `JSON.stringify({selected, unselected}, null, 2)`. -/
def jsonCheckboxPretty (sel unsel : List String) : String :=
  "\x7b\n  \"selected\": " ++ jsonArrPretty "  " sel ++
  ",\n  \"unselected\": " ++ jsonArrPretty "  " unsel ++ "\n\x7d"

/-- One `Form Fields` paragraph: `<id>: <value>`, where a non-string value is
rendered with compact `JSON.stringify`. -/
def fieldParagraph (form : Form) (id : String) : ADF :=
  .paragraph (id ++ ": " ++
    (match valueOrMissing form id with
     | .str s => s
     | .checkbox sel unsel => jsonCheckbox sel unsel))

/-- Embeds the logs block of the description: a paragraph when `fieldLog.logs`
is a string starting with `"Field "`, otherwise a `shell` code block holding
the string, or the pretty-printed JSON when the value is structured. -/
def logsBlock (v : NormValue) : ADF :=
  match v with
  | .str s => if strStartsWith s "Field " then .paragraph s else .codeBlock "shell" s
  | .checkbox sel unsel => .codeBlock "shell" (jsonCheckboxPretty sel unsel)

/-- Embeds `descriptionContent`, the ordered block list of the description. -/
def descriptionContent (issueNumber : Nat) (issueAuthor issueUrl : String)
    (form : Form) : List ADF :=
  [ADF.heading 2 "GitHub Issue",
   ADF.paragraph ("#" ++ toString issueNumber ++ " by " ++ issueAuthor),
   ADF.paragraph issueUrl,
   ADF.heading 2 "Form Fields"] ++
  (FIELD_IDS.filter (fun id => id ≠ "logs")).map (fieldParagraph form) ++
  [ADF.heading 2 "logs", logsBlock (valueOrMissing form "logs")]

/-- Embeds the ticket summary `` `[Android SDK] ${issueTitle}`.trim() ``. -/
def jiraSummary (issueTitle : String) : String :=
  jsTrim ("[Android SDK] " ++ issueTitle)

/-- Observable file-system effects of the startup prefix. -/
inductive Effect where
  | readFile : String → Effect
  deriving DecidableEq, Repr

/-- The distinct failures the startup prefix can raise. -/
inductive StartupError where
  /-- `Error: Missing required env var: <name>` from `requiredEnv`. -/
  | missingEnv : String → StartupError
  /-- `TypeError` from `fs.readFileSync(undefined, "utf8")`. -/
  | badPathType : StartupError
  /-- `Error: No issue in event payload.` -/
  | noIssue : StartupError
  /-- `TypeError` from `repoFull.split("/")` when `repoFull` is undefined. -/
  | splitOnUndefined : StartupError
  deriving DecidableEq, Repr

/-- Embeds `requiredEnv(name)`: JS `!v` rejects both an absent variable and
one set to the empty string. -/
def requiredEnv (env : String → Option String) (name : String) :
    Except StartupError String :=
  match env name with
  | none => .error (.missingEnv name)
  | some v => if v = "" then .error (.missingEnv name) else .ok v

/-- `JIRA_BASE_URL.replace(/\/$/, "")`: strip one trailing slash. -/
def stripTrailingSlash (s : String) : String :=
  if s.data.getLast? = some '/' then String.mk s.data.dropLast else s

/-- The configuration assembled by the startup prefix. -/
structure StartupConfig where
  issueTemplatePath : String
  jiraBaseUrl : String
  jiraEmail : String
  jiraApiToken : String
  jiraProjectKey : String
  jiraIssueType : String
  githubToken : String
  repoFull : String
  deriving DecidableEq, Repr

/-- Embeds the startup prefix of the script in source order: five
`requiredEnv` reads (lines 10-20), the event-file read (line 21, where
`GITHUB_EVENT_PATH` is passed to `readFileSync` unchecked, so an absent
variable raises a `TypeError`), the `issue` presence check (line 24), the
unchecked `GITHUB_REPOSITORY` split (lines 26-27, a `TypeError` on an absent
variable), and the template-file read (line 39).  File reads themselves are
assumed to succeed; the returned list records them in order. -/
def startup (env : String → Option String) (eventHasIssue : Bool) :
    List Effect × Except StartupError StartupConfig :=
  match requiredEnv env "ISSUE_TEMPLATE_PATH" with
  | .error e => ([], .error e)
  | .ok tpl =>
  match requiredEnv env "JIRA_BASE_URL" with
  | .error e => ([], .error e)
  | .ok base =>
  match requiredEnv env "JIRA_EMAIL" with
  | .error e => ([], .error e)
  | .ok email =>
  match requiredEnv env "JIRA_API_TOKEN" with
  | .error e => ([], .error e)
  | .ok tok =>
  let projectKey := (env "JIRA_PROJECT_KEY").getD "SDK"
  let issueType := (env "JIRA_ISSUE_TYPE").getD "Bug"
  match requiredEnv env "GITHUB_TOKEN" with
  | .error e => ([], .error e)
  | .ok ghTok =>
  match env "GITHUB_EVENT_PATH" with
  | none => ([], .error .badPathType)
  | some evPath =>
    if !eventHasIssue then ([.readFile evPath], .error .noIssue)
    else
      match env "GITHUB_REPOSITORY" with
      | none => ([.readFile evPath], .error .splitOnUndefined)
      | some repoFull =>
          ([.readFile evPath, .readFile tpl],
           .ok { issueTemplatePath := tpl, jiraBaseUrl := stripTrailingSlash base,
                 jiraEmail := email, jiraApiToken := tok,
                 jiraProjectKey := projectKey, jiraIssueType := issueType,
                 githubToken := ghTok, repoFull := repoFull })

/-- The two outbound network calls, in the order the script makes them. -/
inductive NetEffect where
  | jiraCreate : String → NetEffect
  | ghComment : String → NetEffect
  deriving DecidableEq, Repr

/-- The failures of the network phase. -/
inductive RunError where
  /-- `Jira create issue failed (<status>): <body>` -/
  | ticketCreation : Nat → String → RunError
  /-- `GitHub comment failed (<status>): <body>` -/
  | commentPost : Nat → String → RunError
  deriving DecidableEq, Repr

/-- `res.ok` of `fetch`: status in the 2xx range. -/
def resOk (status : Nat) : Bool :=
  200 ≤ status && status ≤ 299

/-- An HTTP response as the script observes it: status and body text. -/
structure HttpResponse where
  status : Nat
  body : String
  deriving DecidableEq, Repr

/-- Embeds the network phase (lines 195-252): `jiraCreateIssue` is awaited
first and throws on a non-2xx response; only after it returns is
`ghCreateComment` called, which throws on a non-2xx response.  `jiraKey` is
the key parsed from the successful Jira response body.  Returns the calls
made, in order, alongside the result. -/
def runCalls (jiraRes : HttpResponse) (jiraKey : String) (ghRes : HttpResponse)
    (payload commentBody : String) : List NetEffect × Except RunError String :=
  if !resOk jiraRes.status then
    ([.jiraCreate payload], .error (.ticketCreation jiraRes.status jiraRes.body))
  else if !resOk ghRes.status then
    ([.jiraCreate payload, .ghComment commentBody],
     .error (.commentPost ghRes.status ghRes.body))
  else
    ([.jiraCreate payload, .ghComment commentBody], .ok jiraKey)

/-!  Concrete fixtures used by counterexamples and witnesses. -/

/-- An environment given as an association list. -/
def mkEnv (pairs : List (String × String)) : String → Option String :=
  fun n => (pairs.find? (fun p => p.1 = n)).map Prod.snd

/-- A complete environment for the script. -/
def envFull : List (String × String) :=
  [("ISSUE_TEMPLATE_PATH", "tpl.yml"),
   ("JIRA_BASE_URL", "https://x.atlassian.net"),
   ("JIRA_EMAIL", "e@example.com"),
   ("JIRA_API_TOKEN", "tok"),
   ("GITHUB_TOKEN", "ghtok"),
   ("GITHUB_EVENT_PATH", "event.json"),
   ("GITHUB_REPOSITORY", "osano/osano-sdk-support")]

/-- The complete environment with one variable removed. -/
def envWithout (name : String) : String → Option String :=
  mkEnv (envFull.filter (fun p => p.1 ≠ name))

/-- The complete environment with one variable set to the empty string. -/
def envWithEmpty (name : String) : String → Option String :=
  fun n => if n = name then some "" else mkEnv envFull n

/-- A form whose `logs` field is a non-missing free-text value that happens to
start with the word `Field`. -/
def formLogsFieldText : Form :=
  fun id => if id = "logs" then .str "Field notes from the device" else .undefined

/-- A form whose `logs` field is a checkbox group. -/
def formCheckboxLogs : Form :=
  fun id => if id = "logs" then .checkbox ["A"] ["B"] else .undefined

/-- A form selecting the `Other (specify below)` SDK version with the version
spelled out in `sdk-version-other`. -/
def formOtherSdk : Form :=
  fun id =>
    if id = "sdk-version" then .arr ["Other (specify below)"]
    else if id = "sdk-version-other" then .str "14.2.0-beta"
    else .undefined

/-- Sixty distinct GitHub label names, already in sanitized form. -/
def ghLabels60 : List String :=
  (List.range 60).map (fun i => "q" ++ toString i)

/-- The list of environment variables read through `requiredEnv`, in source
order. -/
def requiredNames : List String :=
  ["ISSUE_TEMPLATE_PATH", "JIRA_BASE_URL", "JIRA_EMAIL", "JIRA_API_TOKEN",
   "GITHUB_TOKEN"]

deriving instance DecidableEq for Except

/-!  General helper lemmas. -/

/-- A `String.mk` is empty exactly when its character list is. -/
theorem mk_eq_empty_iff (l : List Char) : String.mk l = "" ↔ l = [] := by
  constructor
  · intro h
    have := congrArg String.data h
    simpa using this
  · intro h
    rw [h]

/-- `v.trim().length === 0` says exactly that the trimmed string is empty. -/
theorem jsTrim_len_iff (s : String) : (jsTrim s).length = 0 ↔ jsTrim s = "" := by
  constructor
  · intro h
    have hnil : (jsTrim s).data = [] := List.length_eq_zero.mp h
    unfold jsTrim at hnil ⊢
    rw [(mk_eq_empty_iff _).mpr (by simpa using hnil)]
  · intro h
    rw [h]
    rfl

/-- Claim C5: `valueOrMissing(id)` returns the sentinel `Field <id> wasn't
entered.` exactly when `isMissing` holds of the raw value, and otherwise
returns `normalizeValue` of it; `isMissing` is true precisely for undefined,
null, the empty array, a whitespace-only string and the all-empty checkbox
group, and in particular false for the number 0, a non-empty string or array,
a checkbox group with a selection, and a non-checkbox object. -/
theorem valueOrMissing_sentinel_characterization :
    (∀ (form : Form) (id : String),
        valueOrMissing form id =
          if isMissing (form id) then .str (missingText id)
          else normalizeValue (form id)) ∧
    (∀ v, isMissing v = true ↔
        (v = .undefined ∨ v = .null ∨ v = .arr [] ∨
         (∃ s, v = .str s ∧ jsTrim s = "") ∨ v = .checkbox [] [])) ∧
    isMissing (.num 0) = false ∧ isMissing (.str "x") = false ∧
    isMissing (.arr ["a"]) = false ∧ isMissing (.checkbox ["a"] []) = false ∧
    isMissing .objOther = false := by
  refine ⟨fun form id => rfl, ?_, by decide, by decide, by decide, by decide, by decide⟩
  intro v
  cases v <;> simp [isMissing, List.isEmpty_iff, jsTrim_len_iff]

/-- Claim C6: the priority is `High` exactly when the `severity` field value
is an array whose first element starts with the literal phrase
`Major functionality not working`; in every other case (absent severity,
non-array severity, or any other first element) it is `Medium`. -/
theorem jiraPriorityName_high_iff_major :
    ∀ form : Form,
      (jiraPriorityName form = "High" ↔
        ∃ s rest, form "severity" = .arr (s :: rest) ∧
          strStartsWith s "Major functionality not working" = true) ∧
      (jiraPriorityName form = "High" ∨ jiraPriorityName form = "Medium") := by
  intro form
  have hmed : ("Medium" : String) ≠ "High" := by decide
  constructor
  · unfold jiraPriorityName isP1 severityOf
    cases h : form "severity" with
    | arr xs =>
      cases xs with
      | nil => simp [hmed]
      | cons s rest =>
        simp only [List.head?]
        by_cases hs : strStartsWith s "Major functionality not working" = true
        · simp [hs]
        · simp only [hs, if_neg, Bool.false_eq_true, ite_false]
          constructor
          · intro habs
            exact absurd habs hmed
          · rintro ⟨a, l, hal, ha⟩
            obtain ⟨rfl, rfl⟩ : a = s ∧ l = rest := by
              have h2 := hal
              simp only [JSValue.arr.injEq, List.cons.injEq] at h2
              exact ⟨h2.1.symm, h2.2.symm⟩
            exact absurd ha hs
    | undefined => simp [hmed]
    | null => simp [hmed]
    | str s => simp [hmed]
    | num n => simp [hmed]
    | checkbox a b => simp [hmed]
    | objOther => simp [hmed]
  · unfold jiraPriorityName
    by_cases h : isP1 form <;> simp [h]

/-!  Lemmas on run collapsing, relating the flag-carrying embedding of the
global regex replaces to the lookahead form used by the spec pipeline. -/

/-- A character outside the run passes through the lookahead collapse. -/
theorem la_cons_neg (p : Char → Bool) (out c : Char) (cs : List Char)
    (h : p c = false) :
    collapseRunsLA p out (c :: cs) = c :: collapseRunsLA p out cs := by
  cases cs with
  | nil => simp [collapseRunsLA, h]
  | cons d rest => simp [collapseRunsLA, h]

/-- A run at the head of the list collapses to a single `out`. -/
theorem la_cons_pos (p : Char → Bool) (out : Char) (cs : List Char) :
    ∀ c, p c = true →
      collapseRunsLA p out (c :: cs) = out :: collapseRunsLA p out (cs.dropWhile p) := by
  induction cs with
  | nil =>
    intro c h
    simp [collapseRunsLA, h]
  | cons d rest ih =>
    intro c h
    by_cases hd : p d = true
    · rw [show collapseRunsLA p out (c :: d :: rest) = collapseRunsLA p out (d :: rest) by
        simp [collapseRunsLA, h, hd]]
      rw [ih d hd, List.dropWhile_cons_of_pos hd]
    · have hd' : p d = false := by simpa using hd
      rw [show collapseRunsLA p out (c :: d :: rest) = out :: collapseRunsLA p out (d :: rest) by
        simp [collapseRunsLA, h, hd']]
      rw [List.dropWhile_cons_of_neg (by simp [hd'])]

/-- The flag-carrying collapse agrees with the lookahead collapse; the `true`
flag corresponds to first dropping the leading run. -/
theorem collapseRuns_eq_la (p : Char → Bool) (out : Char) :
    ∀ (l : List Char) (b : Bool),
      collapseRuns p out b l =
        if b then collapseRunsLA p out (l.dropWhile p) else collapseRunsLA p out l := by
  intro l
  induction l with
  | nil =>
    intro b
    cases b <;> simp [collapseRuns, collapseRunsLA]
  | cons c cs ih =>
    intro b
    by_cases hp : p c = true
    · cases b with
      | true =>
        rw [show collapseRuns p out true (c :: cs) = collapseRuns p out true cs by
          simp [collapseRuns, hp]]
        rw [ih true, List.dropWhile_cons_of_pos hp]
        simp
      | false =>
        rw [show collapseRuns p out false (c :: cs) = out :: collapseRuns p out true cs by
          simp [collapseRuns, hp]]
        rw [ih true, la_cons_pos p out cs c hp]
        simp
    · have hp' : p c = false := by simpa using hp
      have hstep : ∀ b', collapseRuns p out b' (c :: cs) = c :: collapseRuns p out false cs := by
        intro b'
        simp [collapseRuns, hp']
      cases b with
      | true =>
        rw [hstep true, ih false, List.dropWhile_cons_of_neg (by simp [hp']),
          la_cons_neg p out c cs hp']
        simp
      | false =>
        rw [hstep false, ih false, la_cons_neg p out c cs hp']
        simp

/-- With the initial `false` flag the two collapses coincide. -/
theorem collapseRuns_false_eq_la (p : Char → Bool) (out : Char) (l : List Char) :
    collapseRuns p out false l = collapseRunsLA p out l := by
  rw [collapseRuns_eq_la p out l false]
  simp

/-- `dropWhile` yields either the empty list or a head refuting the predicate. -/
theorem dropWhile_head_cases (p : Char → Bool) (l : List Char) :
    l.dropWhile p = [] ∨
    ∃ d ds, l.dropWhile p = d :: ds ∧ p d = false := by
  induction l with
  | nil => exact Or.inl rfl
  | cons c cs ih =>
    by_cases hp : p c = true
    · rw [List.dropWhile_cons_of_pos hp]
      exact ih
    · have hp' : p c = false := by simpa using hp
      rw [List.dropWhile_cons_of_neg (by simp [hp'])]
      exact Or.inr ⟨c, cs, rfl, hp'⟩

/-- `dropWhile` never lengthens a list. -/
theorem dropWhile_length_le (p : Char → Bool) :
    ∀ l : List Char, (l.dropWhile p).length ≤ l.length := by
  intro l
  induction l with
  | nil => simp
  | cons c cs ih =>
    by_cases hp : p c = true
    · rw [List.dropWhile_cons_of_pos hp]
      exact Nat.le_trans ih (Nat.le_succ _)
    · rw [List.dropWhile_cons_of_neg (by simpa using hp)]

/-- After collapsing hyphen runs no two adjacent hyphens remain. -/
theorem chain_la_hyphen :
    ∀ (n : Nat) (l : List Char), l.length ≤ n →
      List.Chain' (fun a b => ¬(a = '-' ∧ b = '-'))
        (collapseRunsLA (fun c => c == '-') '-' l) := by
  intro n
  induction n with
  | zero =>
    intro l hl
    have hnil : l = [] := List.eq_nil_of_length_eq_zero (Nat.le_zero.mp hl)
    subst hnil
    simp [collapseRunsLA]
  | succ m ih =>
    intro l hl
    cases l with
    | nil => simp [collapseRunsLA]
    | cons c cs =>
      simp only [List.length_cons, Nat.succ_le_succ_iff] at hl
      by_cases hp : (c == '-') = true
      · rw [la_cons_pos _ _ cs c hp]
        rw [List.chain'_cons']
        constructor
        · intro y hy
          rcases dropWhile_head_cases (fun c => c == '-') cs with hnil | ⟨d, ds, hdd, hd⟩
          · rw [hnil] at hy
            simp [collapseRunsLA] at hy
          · rw [hdd, la_cons_neg _ _ d ds hd] at hy
            simp only [List.head?_cons, Option.mem_def, Option.some.injEq] at hy
            subst hy
            intro hcon
            rw [hcon.2] at hd
            simp at hd
        · exact ih (cs.dropWhile (fun c => c == '-'))
            (Nat.le_trans (dropWhile_length_le _ cs) hl)
      · have hp' : (c == '-') = false := by simpa using hp
        rw [la_cons_neg _ _ c cs hp']
        rw [List.chain'_cons']
        constructor
        · intro y _ hcon
          rw [hcon.1] at hp'
          simp at hp'
        · exact ih cs hl

/-- On a list with no adjacent hyphens, dropping the trailing hyphens equals
dropping the last element when (and only when) it is a hyphen. -/
theorem trim_tail_eq (m : List Char)
    (h : List.Chain' (fun a b => ¬(a = '-' ∧ b = '-')) m) :
    (m.reverse.dropWhile (fun c => c == '-')).reverse =
      if m.getLast? = some '-' then m.dropLast else m := by
  have hrev : List.Chain' (fun a b => ¬(b = '-' ∧ a = '-')) m.reverse := by
    rw [List.chain'_reverse]
    exact h
  cases hm : m.reverse with
  | nil =>
    have hmnil : m = [] := by
      rw [← List.reverse_reverse m, hm]
      rfl
    subst hmnil
    simp
  | cons d r' =>
    have hm2 : m = r'.reverse ++ [d] := by
      rw [← List.reverse_reverse m, hm, List.reverse_cons]
    by_cases hd : d = '-'
    · subst hd
      have hlast : m.getLast? = some '-' := by
        rw [hm2]
        exact List.getLast?_concat _
      have hdl : m.dropLast = r'.reverse := by
        rw [hm2]
        exact List.dropLast_concat
      rw [hlast, if_pos rfl, hdl, List.dropWhile_cons_of_pos (by simp)]
      rw [hm] at hrev
      cases r' with
      | nil => simp
      | cons e es =>
        have he : e ≠ '-' := by
          have h1 := (List.chain'_cons.mp hrev).1
          intro hcon
          exact h1 ⟨hcon, rfl⟩
        rw [List.dropWhile_cons_of_neg (by simpa using he)]
    · have hlast : m.getLast? = some d := by
        rw [hm2]
        exact List.getLast?_concat _
      rw [hlast, if_neg (by simpa using hd),
        List.dropWhile_cons_of_neg (by simpa using hd), ← hm, List.reverse_reverse]

/-- On a list with no adjacent hyphens, the single-match JS edge strip
`replace(/^-|-$/g, "")` equals stripping all leading and trailing hyphens. -/
theorem strip_eq_trim (l : List Char)
    (h : List.Chain' (fun a b => ¬(a = '-' ∧ b = '-')) l) :
    stripEdgeHyphens l = trimHyphens l := by
  unfold stripEdgeHyphens trimHyphens
  cases l with
  | nil => rfl
  | cons c r =>
    by_cases hc : c = '-'
    · subst hc
      show (if r.getLast? = some '-' then r.dropLast else r) = _
      have hr : List.Chain' (fun a b => ¬(a = '-' ∧ b = '-')) r := h.tail
      rw [List.dropWhile_cons_of_pos (by simp)]
      have hdrop : r.dropWhile (fun c => c == '-') = r := by
        cases r with
        | nil => rfl
        | cons e es =>
          have he : e ≠ '-' := by
            have h1 := (List.chain'_cons.mp h).1
            intro hcon
            exact h1 ⟨rfl, hcon⟩
          exact List.dropWhile_cons_of_neg (by simpa using he)
      rw [hdrop, trim_tail_eq r hr]
    · have hmatch : (match c :: r with | '-' :: rr => rr | _ => c :: r) = c :: r := by
        split
        · rename_i heq
          injection heq with h1 _
          exact absurd h1 hc
        · rfl
      rw [show (match c :: r with | '-' :: rr => rr | _ => c :: r) = c :: r from hmatch]
      rw [List.dropWhile_cons_of_neg (by simpa using hc)]
      exact (trim_tail_eq (c :: r) h).symm

/-- Claim C8: `sanitizeLabel` computes exactly the pipeline stated by the
spec — lowercase, collapse whitespace runs to one hyphen, replace characters
outside `[a-z0-9-_]` by hyphens, collapse repeated hyphens, strip leading and
trailing hyphens — and in particular maps `Galaxy S21 Ultra!` to
`galaxy-s21-ultra`. -/
theorem sanitizeLabel_matches_spec :
    (∀ s, sanitizeLabel s = sanitizeLabelSpec s) ∧
    sanitizeLabel "Galaxy S21 Ultra!" = "galaxy-s21-ultra" := by
  constructor
  · intro s
    unfold sanitizeLabel sanitizeLabelSpec
    rw [collapseRuns_false_eq_la Char.isWhitespace '-' (jsToLower s).data]
    rw [collapseRuns_false_eq_la (fun c => c == '-') '-']
    congr 1
    apply strip_eq_trim
    exact chain_la_hyphen _ _ (Nat.le_refl _)
  · decide

/-!  Lemmas on insertion-order dedup. -/

/-- `firstOccs` depends on `seen` only through membership. -/
theorem firstOccs_seen_congr (l : List String) :
    ∀ s t, (∀ a, a ∈ s ↔ a ∈ t) → firstOccs s l = firstOccs t l := by
  induction l with
  | nil =>
    intro s t _
    rfl
  | cons x xs ih =>
    intro s t hst
    simp only [firstOccs]
    by_cases hx : x ∈ s
    · rw [if_pos hx, if_pos ((hst x).mp hx)]
      exact ih s t hst
    · rw [if_neg hx, if_neg (fun h => hx ((hst x).mpr h))]
      congr 1
      exact ih _ _ (fun a => by simp [List.mem_cons, hst a])

/-- The fold implementing `new Set` insertion keeps first occurrences. -/
theorem foldl_dedup_eq_firstOccs (l : List String) :
    ∀ acc, l.foldl (fun acc x => if x ∈ acc then acc else acc ++ [x]) acc
      = acc ++ firstOccs acc l := by
  induction l with
  | nil =>
    intro acc
    simp [firstOccs]
  | cons x xs ih =>
    intro acc
    simp only [List.foldl_cons, firstOccs]
    by_cases hx : x ∈ acc
    · rw [if_pos hx, if_pos hx, ih]
    · rw [if_neg hx, if_neg hx, ih (acc ++ [x]), List.append_assoc]
      congr 1
      rw [List.singleton_append]
      congr 1
      exact firstOccs_seen_congr xs _ _
        (fun a => by simp [List.mem_append, List.mem_cons, or_comm])

/-- `insertionDedup` keeps exactly the first occurrences, in order. -/
theorem insertionDedup_eq_firstOccs (l : List String) :
    insertionDedup l = firstOccs [] l := by
  unfold insertionDedup
  rw [foldl_dedup_eq_firstOccs l []]
  rfl

/-- `firstOccs` produces no duplicates and nothing from `seen`. -/
theorem firstOccs_nodup_disjoint (l : List String) :
    ∀ seen, (firstOccs seen l).Nodup ∧ ∀ x ∈ firstOccs seen l, x ∉ seen := by
  induction l with
  | nil =>
    intro seen
    simp [firstOccs]
  | cons x xs ih =>
    intro seen
    simp only [firstOccs]
    by_cases hx : x ∈ seen
    · rw [if_pos hx]
      exact ih seen
    · rw [if_neg hx]
      obtain ⟨hnd, hdisj⟩ := ih (x :: seen)
      refine ⟨List.nodup_cons.mpr ⟨fun hmem => hdisj x hmem (List.mem_cons_self x seen), hnd⟩, ?_⟩
      intro y hy
      rcases List.mem_cons.mp hy with rfl | hy'
      · exact hx
      · exact fun hys => hdisj y hy' (List.mem_cons_of_mem _ hys)

/-- On a duplicate-free list disjoint from `seen`, `firstOccs` is the
identity. -/
theorem firstOccs_eq_self_of_nodup (l : List String) :
    ∀ seen, l.Nodup → (∀ x ∈ l, x ∉ seen) → firstOccs seen l = l := by
  induction l with
  | nil =>
    intro seen _ _
    rfl
  | cons x xs ih =>
    intro seen hnd hdisj
    simp only [firstOccs]
    rw [if_neg (hdisj x (List.mem_cons_self x xs))]
    congr 1
    apply ih
    · exact (List.nodup_cons.mp hnd).2
    · intro y hy hmem
      rcases List.mem_cons.mp hmem with rfl | hys
      · exact (List.nodup_cons.mp hnd).1 hy
      · exact hdisj y (List.mem_cons_of_mem _ hy) hys

/-- An element of the first `k` inputs, not yet seen, survives within the
first `k` outputs of `firstOccs`. -/
theorem mem_take_firstOccs (l : List String) :
    ∀ (k : Nat) (seen : List String) (x : String),
      x ∈ l.take k → x ∉ seen → x ∈ (firstOccs seen l).take k := by
  induction l with
  | nil =>
    intro k seen x hx _
    simp at hx
  | cons c cs ih =>
    intro k seen x hx hns
    cases k with
    | zero => simp at hx
    | succ k' =>
      simp only [List.take_succ_cons, List.mem_cons] at hx
      simp only [firstOccs]
      by_cases hc : c ∈ seen
      · rw [if_pos hc]
        rcases hx with rfl | hx'
        · exact absurd hc hns
        · have h1 : x ∈ (firstOccs seen cs).take k' := ih k' seen x hx' hns
          have h2 : (firstOccs seen cs).take k' =
              ((firstOccs seen cs).take (k' + 1)).take k' := by
            rw [List.take_take]
            congr 1
            omega
          rw [h2] at h1
          exact List.take_subset _ _ h1
      · rw [if_neg hc]
        rcases hx with rfl | hx'
        · simp [List.take_succ_cons]
        · by_cases hxc : x = c
          · subst hxc
            simp [List.take_succ_cons]
          · have h1 : x ∈ (firstOccs (c :: seen) cs).take k' :=
              ih k' (c :: seen) x hx'
                (fun hmem => by
                  rcases List.mem_cons.mp hmem with h | h
                  · exact hxc h
                  · exact hns h)
            simp only [List.take_succ_cons, List.mem_cons]
            right
            exact h1

/-- The `sdk-` label occupies one of the first five slots, so it survives
dedup and the cap of 50. -/
theorem sdkLabel_mem (n : Nat) (v : JSValue) (ls : List String) :
    ("sdk-" ++ sanitizeLabelJS v) ∈ jiraLabels n v ls := by
  have hlen5 : (fixedLabels n v).length = 5 := rfl
  have hx5 : ("sdk-" ++ sanitizeLabelJS v) ∈ (rawLabels n v ls).take 5 := by
    unfold rawLabels
    rw [← hlen5, List.take_left]
    simp [fixedLabels]
  have h1 : ("sdk-" ++ sanitizeLabelJS v) ∈ (firstOccs [] (rawLabels n v ls)).take 5 :=
    mem_take_firstOccs _ 5 [] _ hx5 (by simp)
  have h2 : (firstOccs [] (rawLabels n v ls)).take 5 =
      ((firstOccs [] (rawLabels n v ls)).take 50).take 5 := by
    rw [List.take_take]
    norm_num
  unfold jiraLabels
  rw [insertionDedup_eq_firstOccs]
  rw [h2] at h1
  exact List.take_subset _ _ h1

/-- Claim C4: for every issue number, effective SDK version and GitHub label
list, the constructed Jira label set has no duplicates, has at most 50
entries, and is the first-occurrence dedup of the raw label list truncated to
50 (so insertion order of first occurrences is preserved). -/
theorem jiraLabels_nodup_capped_firstOcc :
    ∀ (n : Nat) (v : JSValue) (ls : List String),
      (jiraLabels n v ls).Nodup ∧ (jiraLabels n v ls).length ≤ 50 ∧
      jiraLabels n v ls = (firstOccs [] (rawLabels n v ls)).take 50 := by
  intro n v ls
  have heq : jiraLabels n v ls = (firstOccs [] (rawLabels n v ls)).take 50 := by
    unfold jiraLabels
    rw [insertionDedup_eq_firstOccs]
  refine ⟨?_, ?_, heq⟩
  · rw [heq]
    exact List.Nodup.sublist (List.take_sublist _ _)
      ((firstOccs_nodup_disjoint (rawLabels n v ls) []).1)
  · rw [heq]
    exact List.length_take_le _ _

set_option maxRecDepth 20000 in
/-- Claim C1 counterexample: with 60 distinct sanitized GitHub labels the
final set indeed has 50 entries, but it consists of the FIVE fixed/derived
labels followed by the first 45 GitHub-derived ones; the 46th GitHub label
(`q45`) does not make the cut, refuting `four fixed plus 46`. -/
theorem labelComposition_counterexample :
    (jiraLabels 7 (.str "1.2.3") ghLabels60).length = 50 ∧
    jiraLabels 7 (.str "1.2.3") ghLabels60 =
      fixedLabels 7 (.str "1.2.3") ++ (ghLabels60.map sanitizeLabel).take 45 ∧
    (fixedLabels 7 (.str "1.2.3")).length = 5 ∧
    sanitizeLabel "q45" = "q45" ∧ "q45" ∈ ghLabels60 ∧
    "q45" ∉ jiraLabels 7 (.str "1.2.3") ghLabels60 := by
  exact ⟨by decide, by decide, by decide, by decide, by decide, by decide⟩

/-- Claim C1 (amended): for an issue carrying 60 GitHub labels, all distinct
after sanitization from each other and from the five fixed/derived labels,
the final set has exactly 50 entries and consists of the five fixed/derived
labels plus the first 45 GitHub-derived labels in first-occurrence order. -/
theorem labelComposition_sixtyDistinct (n : Nat) (v : JSValue) (ls : List String)
    (hnd : (rawLabels n v ls).Nodup) (hlen : ls.length = 60) :
    jiraLabels n v ls = fixedLabels n v ++ (ls.map sanitizeLabel).take 45 ∧
    (jiraLabels n v ls).length = 50 := by
  have h1 : jiraLabels n v ls = (rawLabels n v ls).take 50 := by
    unfold jiraLabels
    rw [insertionDedup_eq_firstOccs, firstOccs_eq_self_of_nodup _ [] hnd (by simp)]
  have hfix : (fixedLabels n v).length = 5 := rfl
  have h2 : jiraLabels n v ls = fixedLabels n v ++ (ls.map sanitizeLabel).take 45 := by
    rw [h1]
    show (fixedLabels n v ++ ls.map sanitizeLabel).take 50 = _
    rw [List.take_append_eq_append_take, hfix]
    rw [List.take_of_length_le (by rw [hfix]; omega)]
  refine ⟨h2, ?_⟩
  rw [h2]
  simp [List.length_append, List.length_take, List.length_map, hlen, hfix]

set_option maxRecDepth 20000 in
/-- Witness for C1 (amended) at issue 7, version `1.2.3`, labels `q0`-`q59`. -/
theorem labelComposition_sixtyDistinct_witness :
    jiraLabels 7 (.str "1.2.3") ghLabels60 =
      fixedLabels 7 (.str "1.2.3") ++ (ghLabels60.map sanitizeLabel).take 45 ∧
    (jiraLabels 7 (.str "1.2.3") ghLabels60).length = 50 :=
  labelComposition_sixtyDistinct 7 (.str "1.2.3") ghLabels60 (by decide) (by decide)

/-- Claim C7: when the first `sdk-version` element is `Other (specify below)`
the effective version is the raw `sdk-version-other` value (or `Other` when
that is absent); otherwise it is the selected version, or `unknown` when
`sdk-version` is absent; the label set always contains `sdk-` plus the
sanitized effective version, and `14.2.0-beta` yields `sdk-14-2-0-beta`. -/
theorem effectiveSdkVersion_rule_and_label :
    (∀ (form : Form) (rest : List String),
        form "sdk-version" = .arr ("Other (specify below)" :: rest) →
        form "sdk-version-other" ≠ .undefined → form "sdk-version-other" ≠ .null →
        effectiveSdkVersion form = form "sdk-version-other") ∧
    (∀ (form : Form) (rest : List String),
        form "sdk-version" = .arr ("Other (specify below)" :: rest) →
        (form "sdk-version-other" = .undefined ∨ form "sdk-version-other" = .null) →
        effectiveSdkVersion form = .str "Other") ∧
    (∀ (form : Form) (s : String) (rest : List String),
        form "sdk-version" = .arr (s :: rest) → s ≠ "Other (specify below)" →
        effectiveSdkVersion form = .str s) ∧
    (∀ form : Form, form "sdk-version" = .undefined →
        effectiveSdkVersion form = .str "unknown") ∧
    (∀ (n : Nat) (v : JSValue) (ls : List String),
        ("sdk-" ++ sanitizeLabelJS v) ∈ jiraLabels n v ls) ∧
    effectiveSdkVersion formOtherSdk = .str "14.2.0-beta" ∧
    (∀ (n : Nat) (ls : List String),
        "sdk-14-2-0-beta" ∈ jiraLabels n (effectiveSdkVersion formOtherSdk) ls) := by
  refine ⟨?_, ?_, ?_, ?_, sdkLabel_mem, by decide, ?_⟩
  · intro form rest h hnu hnn
    unfold effectiveSdkVersion
    rw [h]
    simp only [if_pos rfl]
    cases hv : form "sdk-version-other" with
    | undefined => exact absurd hv hnu
    | null => exact absurd hv hnn
    | str s => rfl
    | arr xs => rfl
    | num i => rfl
    | checkbox a b => rfl
    | objOther => rfl
  · intro form rest h hor
    unfold effectiveSdkVersion
    rw [h]
    simp only [if_pos rfl]
    rcases hor with hv | hv <;> rw [hv] <;> simp
  · intro form s rest h hne
    unfold effectiveSdkVersion
    rw [h]
    simp [hne]
  · intro form h
    unfold effectiveSdkVersion
    rw [h]
  · intro n ls
    have h := sdkLabel_mem n (effectiveSdkVersion formOtherSdk) ls
    have he : ("sdk-" ++ sanitizeLabelJS (effectiveSdkVersion formOtherSdk)) =
        "sdk-14-2-0-beta" := by decide
    rwa [he] at h

/-- Witness for C7 at the concrete `Other (specify below)` form. -/
theorem effectiveSdkVersion_rule_and_label_witness :
    effectiveSdkVersion formOtherSdk = formOtherSdk "sdk-version-other" :=
  effectiveSdkVersion_rule_and_label.1 formOtherSdk [] (by decide) (by decide) (by decide)

/-- Claim C3 counterexample: a non-missing logs value that happens to start
with `Field ` is rendered as a paragraph, not as a code block, so the
paragraph case is not triggered exactly by missingness. -/
theorem logsBlockByMissing_counterexample :
    isMissing (formLogsFieldText "logs") = false ∧
    logsBlock (valueOrMissing formLogsFieldText "logs") =
      .paragraph "Field notes from the device" ∧
    (∀ lang code, logsBlock (valueOrMissing formLogsFieldText "logs") ≠
      .codeBlock lang code) := by
  refine ⟨by decide, by decide, ?_⟩
  intro lang code h
  rw [show logsBlock (valueOrMissing formLogsFieldText "logs") =
      .paragraph "Field notes from the device" from by decide] at h
  exact ADF.noConfusion h

/-- Claim C3 (amended): the block after the `logs` heading — the last block
of the description — is a paragraph holding the normalized logs value exactly
when that value is a string starting with `Field ` (which includes the
sentinel whenever logs is missing); in every other case it is a `shell` code
block holding the string, or the pretty-printed JSON when the value is a
checkbox group. -/
theorem logsBlockBySentinelShape :
    ∀ (form : Form) (n : Nat) (a u : String),
      (descriptionContent n a u form).getLast? =
        some (logsBlock (valueOrMissing form "logs")) ∧
      (isMissing (form "logs") = true →
        valueOrMissing form "logs" = .str (missingText "logs") ∧
        logsBlock (valueOrMissing form "logs") = .paragraph (missingText "logs")) ∧
      (∀ s, valueOrMissing form "logs" = .str s →
        logsBlock (valueOrMissing form "logs") =
          if strStartsWith s "Field " then .paragraph s else .codeBlock "shell" s) ∧
      (∀ sel unsel, valueOrMissing form "logs" = .checkbox sel unsel →
        logsBlock (valueOrMissing form "logs") =
          .codeBlock "shell" (jsonCheckboxPretty sel unsel)) := by
  intro form n a u
  refine ⟨?_, ?_, ?_, ?_⟩
  · unfold descriptionContent
    rw [List.append_assoc, List.getLast?_append_of_ne_nil]
    · rw [List.getLast?_append_of_ne_nil] <;> simp
    · simp
  · intro h
    have hv : valueOrMissing form "logs" = .str (missingText "logs") := by
      unfold valueOrMissing
      rw [h]
      simp
    refine ⟨hv, ?_⟩
    rw [hv]
    decide
  · intro s hs
    rw [hs]
    rfl
  · intro sel unsel hs
    rw [hs]
    rfl

/-- Witness for C3 (amended): a checkbox-group logs value yields a `shell`
code block with the pretty-printed JSON. -/
theorem logsBlockBySentinelShape_witness :
    logsBlock (valueOrMissing formCheckboxLogs "logs") =
      .codeBlock "shell" (jsonCheckboxPretty ["A"] ["B"]) :=
  (logsBlockBySentinelShape formCheckboxLogs 1 "alice" "u").2.2.2 ["A"] ["B"] (by decide)

/-!  Startup lemmas. -/

/-- A present, non-empty variable passes `requiredEnv`. -/
theorem requiredEnv_ok_of (env : String → Option String) (name v : String)
    (h : env name = some v) (hv : v ≠ "") : requiredEnv env name = .ok v := by
  unfold requiredEnv
  rw [h]
  simp [hv]

/-- An absent variable fails `requiredEnv` with the configuration error. -/
theorem requiredEnv_err_of_none (env : String → Option String) (name : String)
    (h : env name = none) : requiredEnv env name = .error (.missingEnv name) := by
  unfold requiredEnv
  rw [h]

/-- If one `requiredEnv` variable fails its check while the other four pass,
the startup stops at that check with its error, before any file read. -/
theorem startup_errors_at (env : String → Option String) (b : Bool) (name : String)
    (hmem : name ∈ requiredNames)
    (herr : requiredEnv env name = .error (.missingEnv name))
    (hothers : ∀ m, m ∈ requiredNames → m ≠ name → ∃ v, env m = some v ∧ v ≠ "") :
    startup env b = ([], .error (.missingEnv name)) := by
  simp only [requiredNames, List.mem_cons, List.not_mem_nil, or_false] at hmem
  rcases hmem with rfl | rfl | rfl | rfl | rfl
  · unfold startup
    rw [herr]
  · obtain ⟨v1, hv1, hne1⟩ := hothers "ISSUE_TEMPLATE_PATH" (by simp [requiredNames]) (by decide)
    unfold startup
    rw [requiredEnv_ok_of env _ v1 hv1 hne1, herr]
  · obtain ⟨v1, hv1, hne1⟩ := hothers "ISSUE_TEMPLATE_PATH" (by simp [requiredNames]) (by decide)
    obtain ⟨v2, hv2, hne2⟩ := hothers "JIRA_BASE_URL" (by simp [requiredNames]) (by decide)
    unfold startup
    rw [requiredEnv_ok_of env _ v1 hv1 hne1, requiredEnv_ok_of env _ v2 hv2 hne2, herr]
  · obtain ⟨v1, hv1, hne1⟩ := hothers "ISSUE_TEMPLATE_PATH" (by simp [requiredNames]) (by decide)
    obtain ⟨v2, hv2, hne2⟩ := hothers "JIRA_BASE_URL" (by simp [requiredNames]) (by decide)
    obtain ⟨v3, hv3, hne3⟩ := hothers "JIRA_EMAIL" (by simp [requiredNames]) (by decide)
    unfold startup
    rw [requiredEnv_ok_of env _ v1 hv1 hne1, requiredEnv_ok_of env _ v2 hv2 hne2,
        requiredEnv_ok_of env _ v3 hv3 hne3, herr]
  · obtain ⟨v1, hv1, hne1⟩ := hothers "ISSUE_TEMPLATE_PATH" (by simp [requiredNames]) (by decide)
    obtain ⟨v2, hv2, hne2⟩ := hothers "JIRA_BASE_URL" (by simp [requiredNames]) (by decide)
    obtain ⟨v3, hv3, hne3⟩ := hothers "JIRA_EMAIL" (by simp [requiredNames]) (by decide)
    obtain ⟨v4, hv4, hne4⟩ := hothers "JIRA_API_TOKEN" (by simp [requiredNames]) (by decide)
    unfold startup
    rw [requiredEnv_ok_of env _ v1 hv1 hne1, requiredEnv_ok_of env _ v2 hv2 hne2,
        requiredEnv_ok_of env _ v3 hv3 hne3, requiredEnv_ok_of env _ v4 hv4 hne4, herr]

/-- Claim C2 counterexample: with all other variables set, an absent
`GITHUB_EVENT_PATH` makes the run fail with the `readFileSync` `TypeError` —
not with `Missing required env var` — and an absent `GITHUB_REPOSITORY` makes
it fail with the `split` `TypeError` only after the event file was read. -/
theorem missingEnvFailure_counterexample :
    startup (envWithout "GITHUB_EVENT_PATH") true = ([], .error .badPathType) ∧
    (∀ name, (startup (envWithout "GITHUB_EVENT_PATH") true).2 ≠
        .error (.missingEnv name)) ∧
    startup (envWithout "GITHUB_REPOSITORY") true =
      ([.readFile "event.json"], .error .splitOnUndefined) := by
  refine ⟨by decide, ?_, by decide⟩
  intro name h
  rw [show (startup (envWithout "GITHUB_EVENT_PATH") true).2 =
      .error .badPathType from by decide] at h
  exact StartupError.noConfusion (Except.error.inj h)

/-- Claim C2 (amended): for each of the five variables read through
`requiredEnv` (ISSUE_TEMPLATE_PATH, JIRA_BASE_URL, JIRA_EMAIL,
JIRA_API_TOKEN, GITHUB_TOKEN), if that variable is absent while the other
four are set and non-empty, the program fails with the configuration error
`Missing required env var: <name>` before reading any input file or making
any network call (the startup trace is empty, and the network phase is only
reached after a successful startup). -/
theorem missingRequiredEnvFailsFast :
    ∀ (env : String → Option String) (b : Bool) (name : String),
      name ∈ requiredNames → env name = none →
      (∀ m, m ∈ requiredNames → m ≠ name → ∃ v, env m = some v ∧ v ≠ "") →
      startup env b = ([], .error (.missingEnv name)) := by
  intro env b name hmem hnone hoth
  exact startup_errors_at env b name hmem (requiredEnv_err_of_none env name hnone) hoth

/-- Witness for C2 (amended) with `JIRA_EMAIL` removed. -/
theorem missingRequiredEnvFailsFast_witness :
    startup (envWithout "JIRA_EMAIL") true = ([], .error (.missingEnv "JIRA_EMAIL")) := by
  apply missingRequiredEnvFailsFast (envWithout "JIRA_EMAIL") true "JIRA_EMAIL"
    (by decide) (by decide)
  intro m hm hne
  simp only [requiredNames, List.mem_cons, List.not_mem_nil, or_false] at hm
  rcases hm with rfl | rfl | rfl | rfl | rfl
  · exact ⟨"tpl.yml", by decide, by decide⟩
  · exact ⟨"https://x.atlassian.net", by decide, by decide⟩
  · exact absurd rfl hne
  · exact ⟨"tok", by decide, by decide⟩
  · exact ⟨"ghtok", by decide, by decide⟩

/-- Claim C10: a variable set to the empty string is rejected by `requiredEnv`
exactly like an absent one (JS `!v` is true for `""`), so setting any of the
five `requiredEnv` variables to `""` still aborts the startup with
`Missing required env var: <name>`. -/
theorem emptyEnvVar_treated_missing :
    (∀ (env : String → Option String) (name : String), env name = some "" →
        requiredEnv env name = .error (.missingEnv name)) ∧
    (∀ (b : Bool) (name : String), name ∈ requiredNames →
        startup (envWithEmpty name) b = ([], .error (.missingEnv name))) := by
  constructor
  · intro env name h
    unfold requiredEnv
    rw [h]
    simp
  · intro b name hmem
    apply startup_errors_at (envWithEmpty name) b name hmem
    · unfold requiredEnv envWithEmpty
      simp
    · intro m hm hne
      refine ⟨(mkEnv envFull m).getD "", ?_, ?_⟩
      · unfold envWithEmpty
        rw [if_neg hne]
        simp only [requiredNames, List.mem_cons, List.not_mem_nil, or_false] at hm
        rcases hm with rfl | rfl | rfl | rfl | rfl <;> decide
      · simp only [requiredNames, List.mem_cons, List.not_mem_nil, or_false] at hm
        rcases hm with rfl | rfl | rfl | rfl | rfl <;> decide

/-- Witness for C10 with `GITHUB_TOKEN` set to the empty string. -/
theorem emptyEnvVar_treated_missing_witness :
    startup (envWithEmpty "GITHUB_TOKEN") true =
      ([], .error (.missingEnv "GITHUB_TOKEN")) :=
  emptyEnvVar_treated_missing.2 true "GITHUB_TOKEN" (by decide)

/-- Claim C9: the GitHub comment request is made only when the Jira creation
response was a success; a non-success Jira response raises the ticket-creation
error with no comment request; a comment-post error implies the ticket was
already created (both calls appear in the trace, Jira first). -/
theorem comment_only_after_ticket :
    ∀ (jiraRes : HttpResponse) (jiraKey : String) (ghRes : HttpResponse)
      (payload commentBody : String),
      (∀ c, NetEffect.ghComment c ∈ (runCalls jiraRes jiraKey ghRes payload commentBody).1 →
        resOk jiraRes.status = true) ∧
      (resOk jiraRes.status = false →
        runCalls jiraRes jiraKey ghRes payload commentBody =
          ([.jiraCreate payload], .error (.ticketCreation jiraRes.status jiraRes.body))) ∧
      (∀ st b, (runCalls jiraRes jiraKey ghRes payload commentBody).2 =
          .error (.commentPost st b) →
        resOk jiraRes.status = true ∧ resOk ghRes.status = false ∧
        (runCalls jiraRes jiraKey ghRes payload commentBody).1 =
          [.jiraCreate payload, .ghComment commentBody]) := by
  intro jr k gr p c
  unfold runCalls
  by_cases hj : resOk jr.status
  · by_cases hg : resOk gr.status <;> simp [hj, hg]
  · simp [hj]

/-- Witness for C9: a 500 from Jira stops the run before any comment call. -/
theorem comment_only_after_ticket_witness :
    runCalls ⟨500, "oops"⟩ "SDK-1" ⟨200, ""⟩ "payload" "comment" =
      ([.jiraCreate "payload"], .error (.ticketCreation 500 "oops")) :=
  (comment_only_after_ticket ⟨500, "oops"⟩ "SDK-1" ⟨200, ""⟩ "payload" "comment").2.1
    (by decide)
